import Mathlib

/-!
Verification of the reactive-models library (a thin reactive-cell layer over a
UI framework's useState/useMemo primitives).

The embedding translates src/src/reactive.ts and src/src/async.ts into pure
Lean definitions:

* JS values are the inductive `JSVal`; `truthy` is JS boolean coercion.
* A `Cell` is the handle object a hook returns during one render: an object
  identity plus the value snapshot read from the host state slot.
* The host's mutable-state primitive is modelled by explicit slot passing
  (`useState` on `Option`-typed slots) and by `SetStateAction`/`applyAction`
  for the dispatched setter.
* `useComputedReactive` (reactive.ts lines 115-129) is modelled as a render
  pass over a `ComputedState` (the backing useState slot and the useMemo
  cache); traces of renders and manual updates are run by `runEvents`.
* `useAsyncReactive` (async.ts lines 8-12) and `useAsyncComputed`
  (async.ts lines 24-34) are modelled as state machines over event traces in
  which promise resolutions are delivered by the environment; continuation
  registration and firing follow the JS promise rules (a continuation
  registered before resolution fires at resolution, one registered after
  fires immediately on a microtask, each fires exactly once).
-/

namespace ReactiveModels

/-- JS values as far as this library inspects them: the two nullish values,
booleans, numbers (integral - no claim involves fractional or NaN values),
strings and arrays. -/
inductive JSVal where
  | undef : JSVal
  | null : JSVal
  | boolean : Bool → JSVal
  | number : Int → JSVal
  | string : String → JSVal
  | array : List JSVal → JSVal

/-- JS boolean coercion: undefined, null, false, 0 and the empty string are
falsy; every other value (arrays and objects included) is truthy. -/
def truthy : JSVal → Bool
  | .undef => false
  | .null => false
  | .boolean b => b
  | .number n => decide (n ≠ 0)
  | .string s => decide (s ≠ "")
  | .array _ => true

/-- A Reactive cell handle as constructed during one render: an object
identity (fresh per render) and the value snapshot destructured from the
useState slot (reactive.ts line 61 / line 174). -/
structure Cell (S : Type) where
  oid : Nat
  value : S
deriving DecidableEq

/-- Strict JS equality against the literal undefined: a constructor check. -/
def isUndef : JSVal → Bool
  | .undef => true
  | _ => false

/-- Strict JS equality against the literal null: a constructor check. -/
def isNull : JSVal → Bool
  | .null => true
  | _ => false

/-- Reactive.isDefined (reactive.ts lines 64-66 and 179-181):
value !== undefined && value !== null. -/
def isDefined (c : Cell JSVal) : Bool :=
  !(isUndef c.value) && !(isNull c.value)

/-- Reactive.isEmpty (reactive.ts lines 68-70 and 182-184): the boolean
negation of the value, i.e. of its truthiness. -/
def isEmpty (c : Cell JSVal) : Bool :=
  !(truthy c.value)

/-- The host setter's argument (react's SetStateAction): a literal
replacement value or an updater function applied to the previous value. -/
inductive SetStateAction (S : Type) where
  | literal : S → SetStateAction S
  | updater : (S → S) → SetStateAction S

/-- The host state slot applying a dispatched action to its current
content. -/
def applyAction (cur : S) : SetStateAction S → S
  | .literal v => v
  | .updater f => f cur

/-- Reactive.reset (reactive.ts lines 83-86 and 192-195): dispatches
update(undefined) to the backing slot and returns this, the very same
handle. The result is the returned handle together with the dispatched
action. -/
def reset (c : Cell JSVal) : Cell JSVal × SetStateAction JSVal :=
  (c, SetStateAction.literal JSVal.undef)

/-- The host useState primitive on an explicit slot: the initial value is
consumed only when the slot is not yet mounted; afterwards the stored value
is returned and the initializer argument is ignored. Returns the value
observed this render and the slot after the render. -/
def useState (init : S) : Option S → S × Option S
  | none => (init, some init)
  | some v => (v, some v)

/-- The two slots of a component that creates a source cell and immediately
maps it: Reactive.map (reactive.ts lines 72-74) calls useReactive on
fn(value), so the mapped cell owns a second, fresh state slot. -/
structure MapSlots (α β : Type) where
  src : Option α
  mapped : Option β
deriving DecidableEq

/-- One render of a component running `c := useReactive init; m := c.map fn`:
the source slot is read (seeded with init on mount), then map immediately
creates the mapped cell by useReactive(fn(c.value)) — a second slot seeded,
on mount only, with the mapped snapshot. No subscription ties the two slots.
Returns the observed pair (c.value, m.value) and the slots after the
render. -/
def renderMapComponent (fn : α → β) (init : α) (st : MapSlots α β) :
    (α × β) × MapSlots α β :=
  let a := useState init st.src
  let b := useState (fn a.1) st.mapped
  ((a.1, b.1), ⟨a.2, b.2⟩)

/-- The source cell's update(v) commits v into the source slot; the mapped
slot is untouched (map registered no subscription). -/
def writeSource (v : α) (st : MapSlots α β) : MapSlots α β :=
  { st with src := some v }

/-- Host state backing one useComputedReactive call (reactive.ts lines
115-129): the useState slot of the internal cell (`previous`) and the
useMemo cache, holding the dependency list and value of the last
computation. On mount the cache is empty. -/
structure ComputedState (S D : Type) where
  slot : S
  memo : Option (List D × S)
deriving DecidableEq

/-- Result of one render pass of useComputedReactive: the value the returned
cell exposes during that pass (the slot as destructured at the useReactive
call, before any render-phase update), the factory invocation of the pass if
the memo recomputed (argument and result), and the host state after the pass
— a render-phase `previous.update(newUpdate)` inside the memoized function
is applied by the host before the next pass. -/
structure RenderPass (S D : Type) where
  observed : S
  invoked : Option (S × S)
  next : ComputedState S D
deriving DecidableEq

/-- One render pass of useComputedReactive (reactive.ts lines 115-129). The
memo recomputes when there is no cached computation yet or the cached
dependency list differs from the current one (the host compares lists
elementwise); recomputation runs factory(previous.value) and commits the
result into the slot via previous.update. On a cache hit nothing changes. -/
def useComputedReactive [DecidableEq D] (factory : S → S) (deps : List D)
    (st : ComputedState S D) : RenderPass S D :=
  match st.memo with
  | some (cached, _) =>
    if cached = deps then
      { observed := st.slot, invoked := none, next := st }
    else
      let result := factory st.slot
      { observed := st.slot
        invoked := some (st.slot, result)
        next := { slot := result, memo := some (deps, result) } }
  | none =>
    let result := factory st.slot
    { observed := st.slot
      invoked := some (st.slot, result)
      next := { slot := result, memo := some (deps, result) } }

/-- The read-only variant useComputed (reactive.ts lines 135-144): builds the
computed reactive cell and returns model.value — the value observed in the
same render pass. -/
def useComputed [DecidableEq D] (factory : S → S) (deps : List D)
    (st : ComputedState S D) : S :=
  (useComputedReactive factory deps st).observed

/-- What can happen to a mounted computed cell over time: the host re-renders
the owning component with a (possibly changed) dependency list, or some
caller invokes the returned cell's update with a value. -/
inductive Event (S D : Type) where
  | render : List D → Event S D
  | update : S → Event S D
deriving DecidableEq

/-- One event against the host state: a render runs a render pass of
useComputedReactive (and the host settles its render-phase update); a manual
update writes the slot. Returns the new state and the factory invocations
the event caused. -/
def stepEvent [DecidableEq D] (factory : S → S) (ev : Event S D)
    (st : ComputedState S D) : ComputedState S D × List (S × S) :=
  match ev with
  | .render deps =>
    let p := useComputedReactive factory deps st
    (p.next, p.invoked.toList)
  | .update v => ({ st with slot := v }, [])

/-- Run a trace of events, collecting every factory invocation in order. -/
def runEvents [DecidableEq D] (factory : S → S) :
    List (Event S D) → ComputedState S D → ComputedState S D × List (S × S)
  | [], st => (st, [])
  | ev :: rest, st =>
    let s1 := stepEvent factory ev st
    let s2 := runEvents factory rest s1.1
    (s2.1, s1.2 ++ s2.2)

/-- Host state right after useComputedReactive's first useReactive call and
before the first memo evaluation: slot seeded with the initial value, memo
cache empty. -/
def initComputed (i : S) : ComputedState S D :=
  { slot := i, memo := none }

/-- The committed value after each event of a trace: the slot once the host
has settled the event (for a render, after the render-phase update of a
recomputation is applied). -/
def committedTrace [DecidableEq D] (factory : S → S) :
    List (Event S D) → ComputedState S D → List S
  | [], _ => []
  | ev :: rest, st =>
    let s1 := stepEvent factory ev st
    s1.1.slot :: committedTrace factory rest s1.1

/-- The invocation chain the specification describes, written from the
spec's own words and independent of the slot/memo machinery: walking the
trace with the dependency list of the last render and the last committed
value (committed by a recomputation or by a manual update, whichever came
later), a render whose dependency list differs from the previous one runs
the factory once on the committed value and commits its result; nothing else
runs the factory. -/
def specChain [DecidableEq D] (factory : S → S) :
    List (Event S D) → Option (List D) → S → List (S × S)
  | [], _, _ => []
  | .render deps :: rest, cur, committed =>
    if some deps = cur then specChain factory rest (some deps) committed
    else
      let r := factory committed
      (committed, r) :: specChain factory rest (some deps) r
  | .update v :: rest, cur, _ => specChain factory rest cur v

/-- The committed value after a trace, written from the spec's words: a
recomputation commits the factory's result computed on the committed value,
a manual update commits the written value, and a render without a
dependency-list change commits nothing. -/
def specCommitted [DecidableEq D] (factory : S → S) :
    List (Event S D) → Option (List D) → S → S
  | [], _, committed => committed
  | .render deps :: rest, cur, committed =>
    if some deps = cur then specCommitted factory rest (some deps) committed
    else specCommitted factory rest (some deps) (factory committed)
  | .update v :: rest, cur, _ => specCommitted factory rest cur v

/-- Number of distinct changes of the dependency list along a trace, the
mount render counting as the first change (the memo has no cached list
yet). -/
def countChanges [DecidableEq D] : List (Event S D) → Option (List D) → Nat
  | [], _ => 0
  | .render deps :: rest, cur =>
    (if some deps = cur then 0 else 1) + countChanges rest (some deps)
  | .update _ :: rest, cur => countChanges rest cur

/-- An event whose renders all carry the empty dependency list. -/
def rendersOnlyNil : Event S D → Bool
  | .render d => d.isEmpty
  | .update _ => true

/-- The factory of spec property 9: prev => (prev ?? 0) + 1, on values that
are an integer or undefined (`none`). -/
def incFactory : Option Int → Option Int :=
  fun p => some (p.getD 0 + 1)

/-- Host state for useAsyncReactive (async.ts lines 8-12) around one external
promise P: the cell's useState slot, the number of continuations registered
on P by `promise.then(reactive.update)` and not yet fired, P's resolution
once settled, and the log of values the fired continuations passed to the
cell's update. -/
structure PromiseCellState (S : Type) where
  slot : S
  pending : Nat
  settled : Option S
  callLog : List S
deriving DecidableEq

/-- Events around useAsyncReactive: the owning component renders (the hook
body runs again, registering `promise.then(reactive.update)` once more), the
promise resolves, or a caller manually updates the cell. -/
inductive PEvent (S : Type) where
  | render : PEvent S
  | resolve : S → PEvent S
  | update : S → PEvent S
deriving DecidableEq

/-- One event of the useAsyncReactive machine. A render on an unsettled
promise adds a pending continuation; on a settled promise the freshly
registered continuation fires on the next microtask, calling update with the
resolved value. Resolution (first settlement only — a promise settles once)
fires every pending continuation with the resolved value; each continuation
fires exactly once. -/
def stepPromise (ev : PEvent S) (st : PromiseCellState S) : PromiseCellState S :=
  match ev with
  | .render =>
    match st.settled with
    | some r => { st with slot := r, callLog := st.callLog ++ [r] }
    | none => { st with pending := st.pending + 1 }
  | .resolve r =>
    match st.settled with
    | some _ => st
    | none =>
      { slot := if st.pending = 0 then st.slot else r
        pending := 0
        settled := some r
        callLog := st.callLog ++ List.replicate st.pending r }
  | .update v => { st with slot := v }

/-- Run a trace of useAsyncReactive events. -/
def runPromise (evs : List (PEvent S)) (st : PromiseCellState S) : PromiseCellState S :=
  evs.foldl (fun s e => stepPromise e s) st

/-- State right after the mount render's useReactive call: slot seeded with
the initial value, promise pending with the mount render's continuation not
yet counted (the mount render itself is the first render event). -/
def initPromise (i : S) : PromiseCellState S :=
  { slot := i, pending := 0, settled := none, callLog := [] }

/-- Host state for useAsyncComputed (async.ts lines 24-34). Each
recomputation of `useMemo(asyncFactory, deps)` invokes the factory once,
yielding a fresh promise, numbered here by generation; the memo caches the
dependency list and the generation of its promise. Independently,
`.then(previous.update)` runs on EVERY render against the current memoized
promise. pending g counts that promise's registered, unfired continuations;
settled g is its resolution once the environment delivers it; calls g counts
the update calls fired by generation g's continuations. -/
structure AsyncComputedState (S D : Type) where
  slot : S
  memo : Option (List D × Nat)
  nextGen : Nat
  pending : Nat → Nat
  settled : Nat → Option S
  calls : Nat → Nat

/-- Events around useAsyncComputed: the owning component renders with a
dependency list, or the promise of generation g resolves with a value. -/
inductive AEvent (S D : Type) where
  | render : List D → AEvent S D
  | resolve : Nat → S → AEvent S D
deriving DecidableEq

/-- One event of the useAsyncComputed machine. A render first evaluates the
memo: on a cache miss (mount, or changed dependency list) the factory runs
and a fresh promise generation becomes current. Then the hook registers
`.then(previous.update)` on the current promise: pending if unsettled, fired
on the next microtask with the resolved value if already settled. A
resolution (of an existing, not yet settled generation) fires that
generation's pending continuations, each exactly once. -/
def stepAsync [DecidableEq D] (ev : AEvent S D) (st : AsyncComputedState S D) :
    AsyncComputedState S D :=
  match ev with
  | .render deps =>
    let cur : Nat × AsyncComputedState S D :=
      match st.memo with
      | some (cached, g0) =>
        if cached = deps then (g0, st)
        else (st.nextGen,
          { st with memo := some (deps, st.nextGen), nextGen := st.nextGen + 1 })
      | none =>
        (st.nextGen,
          { st with memo := some (deps, st.nextGen), nextGen := st.nextGen + 1 })
    match cur.2.settled cur.1 with
    | some r =>
      { cur.2 with
        slot := r
        calls := fun k => if k = cur.1 then cur.2.calls k + 1 else cur.2.calls k }
    | none =>
      { cur.2 with
        pending := fun k => if k = cur.1 then cur.2.pending k + 1 else cur.2.pending k }
  | .resolve g r =>
    if g < st.nextGen then
      match st.settled g with
      | some _ => st
      | none =>
        { st with
          slot := if st.pending g = 0 then st.slot else r
          settled := fun k => if k = g then some r else st.settled k
          calls := fun k => if k = g then st.calls k + st.pending g else st.calls k
          pending := fun k => if k = g then 0 else st.pending k }
    else st

/-- Run a trace of useAsyncComputed events. -/
def runAsync [DecidableEq D] (evs : List (AEvent S D)) (st : AsyncComputedState S D) :
    AsyncComputedState S D :=
  evs.foldl (fun s e => stepAsync e s) st

/-- Host state before the mount render of useAsyncComputed: slot seeded with
the initial value, no memoized promise yet, no generation allocated, nothing
pending, settled or called. -/
def initAsync (i : S) : AsyncComputedState S D :=
  { slot := i, memo := none, nextGen := 0
    pending := fun _ => 0, settled := fun _ => none, calls := fun _ => 0 }

/-- Number of render events of a trace at which promise generation g is the
current memoized promise, following only the memo bookkeeping (cached
dependency list and generation counter). -/
def rendersFor [DecidableEq D] (g : Nat) :
    List (AEvent S D) → Option (List D × Nat) → Nat → Nat
  | [], _, _ => 0
  | AEvent.render deps :: rest, memo, next =>
    match memo with
    | some (cached, g0) =>
      if cached = deps then
        (if g0 = g then 1 else 0) + rendersFor g rest memo next
      else
        (if next = g then 1 else 0) + rendersFor g rest (some (deps, next)) (next + 1)
    | none =>
      (if next = g then 1 else 0) + rendersFor g rest (some (deps, next)) (next + 1)
  | AEvent.resolve _ _ :: rest, memo, next => rendersFor g rest memo next

/-- Sanity of a useAsyncComputed machine state: an unsettled promise has
fired no update call yet, and a settled promise keeps no pending
continuation (they all fired at settlement). -/
def GoodAsync (st : AsyncComputedState S D) : Prop :=
  ∀ k, (st.settled k = none → st.calls k = 0) ∧
       (st.settled k ≠ none → st.pending k = 0)

/-- The trace of spec property 9 for the computed cell: the mount render and
two renders with a changed dependency value. -/
def propNineTrace : List (Event (Option Int) Int) :=
  [Event.render [0], Event.render [1], Event.render [2]]

/-- A useAsyncComputed trace: the mount render, the resolution of the mount
recomputation's promise (generation 0), and the re-render the delivered
update itself causes (same dependency list, so the memo does not
recompute). -/
def asyncCexTrace : List (AEvent Int Nat) :=
  [AEvent.render [0], AEvent.resolve 0 5, AEvent.render [0]]

/-- C7: for every cell and every current value v, isDefined() returns true
iff v is neither null nor undefined; in particular it returns true for the
falsy values 0, "", false and for []. -/
theorem isDefined_iff_not_nullish (c : Cell JSVal) :
    (isDefined c = true ↔ (c.value ≠ JSVal.undef ∧ c.value ≠ JSVal.null)) ∧
    isDefined ⟨0, JSVal.number 0⟩ = true ∧
    isDefined ⟨0, JSVal.string ""⟩ = true ∧
    isDefined ⟨0, JSVal.boolean false⟩ = true ∧
    isDefined ⟨0, JSVal.array []⟩ = true := by
  refine ⟨?_, rfl, rfl, rfl, rfl⟩
  obtain ⟨o, v⟩ := c
  cases v <;> simp [isDefined, isUndef, isNull]

/-- C8: for every cell and every current value v, isEmpty() follows
JS-truthiness, not strict definedness: it is true exactly when v is falsy —
undefined, null, false, 0 or the empty string — and false for every other
value, including non-empty structures (and the empty array, which is
truthy). -/
theorem isEmpty_iff_falsy (c : Cell JSVal) :
    (isEmpty c = true ↔
      (c.value = JSVal.undef ∨ c.value = JSVal.null ∨
       c.value = JSVal.boolean false ∨ c.value = JSVal.number 0 ∨
       c.value = JSVal.string "")) ∧
    isEmpty ⟨0, JSVal.array []⟩ = false ∧
    isEmpty ⟨0, JSVal.array [JSVal.number 1]⟩ = false ∧
    isEmpty ⟨0, JSVal.number 0⟩ = true ∧
    isEmpty ⟨0, JSVal.string ""⟩ = true ∧
    isEmpty ⟨0, JSVal.boolean false⟩ = true ∧
    isEmpty ⟨0, JSVal.null⟩ = true ∧
    isEmpty ⟨0, JSVal.undef⟩ = true := by
  refine ⟨?_, rfl, rfl, rfl, rfl, rfl, rfl, rfl⟩
  obtain ⟨o, v⟩ := c
  cases v with
  | boolean b => cases b <;> simp [isEmpty, truthy]
  | number n => simp [isEmpty, truthy]
  | string s => simp [isEmpty, truthy]
  | _ => simp [isEmpty, truthy]

/-- C9: for every cell and every prior slot value, reset() dispatches
update(undefined) — so the slot's next content is undefined regardless of
what it held — and returns the very same cell handle, so chaining operates
on the original cell. -/
theorem reset_undefined_same_handle (c : Cell JSVal) (cur : JSVal) :
    (reset c).1 = c ∧ applyAction cur (reset c).2 = JSVal.undef :=
  ⟨rfl, rfl⟩

/-- C10: for every cell with current value v and every function fn, map(fn)
immediately creates a brand-new independent cell initialized to fn(v) in its
own state slot; it takes no subscription on the source, so updating the
source to any v2 and re-rendering leaves the mapped cell's value at fn(v)
while the source shows v2. -/
theorem map_snapshot_no_subscription (fn : α → β) (v v2 : α) :
    (renderMapComponent fn v (⟨none, none⟩ : MapSlots α β)).1 = (v, fn v) ∧
    (renderMapComponent fn v
        (writeSource v2 (renderMapComponent fn v (⟨none, none⟩ : MapSlots α β)).2)).1
      = (v2, fn v) :=
  ⟨rfl, rfl⟩

/-- The invocations a trace produces on the machine are exactly the chain
the spec describes, seeded with the cached dependency list and the slot. -/
theorem runEvents_eq_specChain [DecidableEq D] (factory : S → S)
    (trace : List (Event S D)) (st : ComputedState S D) :
    (runEvents factory trace st).2
      = specChain factory trace (st.memo.map Prod.fst) st.slot := by
  induction trace generalizing st with
  | nil => rfl
  | cons ev rest ih =>
    cases ev with
    | update v =>
      simpa [runEvents, stepEvent, specChain] using ih { st with slot := v }
    | render deps =>
      obtain ⟨slot, memo⟩ := st
      cases memo with
      | none =>
        simpa [runEvents, stepEvent, useComputedReactive, specChain] using
          ih { slot := factory slot, memo := some (deps, factory slot) }
      | some p =>
        obtain ⟨cached, v⟩ := p
        by_cases h : cached = deps
        · subst h
          simpa [runEvents, stepEvent, useComputedReactive, specChain] using
            ih { slot := slot, memo := some (cached, v) }
        · have h2 : ¬ some deps = some cached := by
            intro he
            exact h (Option.some.inj he).symm
          simpa [runEvents, stepEvent, useComputedReactive, specChain, h, h2] using
            ih { slot := factory slot, memo := some (deps, factory slot) }

/-- The slot a trace leaves behind is the committed value the spec
describes. -/
theorem runEvents_slot_eq_specCommitted [DecidableEq D] (factory : S → S)
    (trace : List (Event S D)) (st : ComputedState S D) :
    (runEvents factory trace st).1.slot
      = specCommitted factory trace (st.memo.map Prod.fst) st.slot := by
  induction trace generalizing st with
  | nil => rfl
  | cons ev rest ih =>
    cases ev with
    | update v =>
      simpa [runEvents, stepEvent, specCommitted] using ih { st with slot := v }
    | render deps =>
      obtain ⟨slot, memo⟩ := st
      cases memo with
      | none =>
        simpa [runEvents, stepEvent, useComputedReactive, specCommitted] using
          ih { slot := factory slot, memo := some (deps, factory slot) }
      | some p =>
        obtain ⟨cached, v⟩ := p
        by_cases h : cached = deps
        · subst h
          simpa [runEvents, stepEvent, useComputedReactive, specCommitted] using
            ih { slot := slot, memo := some (cached, v) }
        · have h2 : ¬ some deps = some cached := by
            intro he
            exact h (Option.some.inj he).symm
          simpa [runEvents, stepEvent, useComputedReactive, specCommitted, h, h2] using
            ih { slot := factory slot, memo := some (deps, factory slot) }

/-- The spec chain has one entry per distinct change of the dependency
list. -/
theorem specChain_length [DecidableEq D] (factory : S → S)
    (trace : List (Event S D)) (cur : Option (List D)) (committed : S) :
    (specChain factory trace cur committed).length = countChanges trace cur := by
  induction trace generalizing cur committed with
  | nil => rfl
  | cons ev rest ih =>
    cases ev with
    | update v => simpa [specChain, countChanges] using ih cur v
    | render deps =>
      by_cases h : some deps = cur <;>
        simp [specChain, countChanges, h, ih, Nat.add_comm]

/-- C3: for every computed cell (factory f, dependency list evolving along a
trace of renders and manual updates), f runs exactly once per distinct
change of the dependency list (the mount evaluation counting as the first),
the previous argument passed to the n-th recomputation is the value
committed by the (n-1)-th recomputation or the most recent manual update,
whichever happened later, and each recomputation's result is committed as
the cell's new value: the machine's invocations and final committed slot
coincide with the chain written from the spec's words. -/
theorem computed_previous_chain [DecidableEq D] (factory : S → S) (i : S)
    (trace : List (Event S D)) :
    (runEvents factory trace (initComputed i)).2 = specChain factory trace none i ∧
    ((runEvents factory trace (initComputed i)).2).length = countChanges trace none ∧
    (runEvents factory trace (initComputed i)).1.slot
      = specCommitted factory trace none i := by
  refine ⟨?_, ?_, ?_⟩
  · simpa using runEvents_eq_specChain factory trace (initComputed i)
  · rw [runEvents_eq_specChain]
    simpa using specChain_length factory trace none i
  · simpa using runEvents_slot_eq_specCommitted factory trace (initComputed i)

/-- C4: on the render pass in which the factory executes, the value read
from the returned cell — and the value the read-only useComputed variant
returns — is still the pre-recomputation slot (the initial value on the
mount render); the factory's result becomes observable only on the
subsequent render, after the host applies the update committed inside the
memoized function, and that subsequent render does not recompute. -/
theorem factory_result_visible_next_render [DecidableEq D] (factory : S → S)
    (deps : List D) (st : ComputedState S D) :
    (useComputedReactive factory deps st).observed = st.slot ∧
    useComputed factory deps st = st.slot ∧
    ((useComputedReactive factory deps st).invoked.isSome = true →
      (useComputedReactive factory deps
          (useComputedReactive factory deps st).next).observed = factory st.slot ∧
      (useComputedReactive factory deps
          (useComputedReactive factory deps st).next).invoked = none) := by
  obtain ⟨slot, memo⟩ := st
  cases memo with
  | none => simp [useComputedReactive, useComputed]
  | some p =>
    obtain ⟨cached, v⟩ := p
    by_cases h : cached = deps <;>
      simp [useComputedReactive, useComputed, h]

/-- No render whose dependency list is the empty list recomputes once the
memo caches the empty list. -/
theorem countChanges_nil_deps [DecidableEq D] (trace : List (Event S D))
    (h : ∀ ev ∈ trace, rendersOnlyNil ev = true) :
    countChanges trace (some ([] : List D)) = 0 := by
  induction trace with
  | nil => rfl
  | cons ev rest ih =>
    have hev := h ev (List.mem_cons_self ev rest)
    have hrest : ∀ e ∈ rest, rendersOnlyNil e = true :=
      fun e he => h e (List.mem_cons_of_mem ev he)
    cases ev with
    | update v => simpa [countChanges] using ih hrest
    | render d =>
      have hd : d = [] := by
        simpa [rendersOnlyNil, List.isEmpty_iff] using hev
      subst hd
      simpa [countChanges] using ih hrest

/-- C6: for a computed cell whose dependency list is empty, the factory is
invoked exactly once — on the first evaluation — and never again on any
later render or manual update. -/
theorem empty_deps_factory_runs_once [DecidableEq D] (factory : S → S) (i : S)
    (rest : List (Event S D)) (h : ∀ ev ∈ rest, rendersOnlyNil ev = true) :
    ((runEvents factory (Event.render [] :: rest) (initComputed i)).2).length = 1 := by
  rw [runEvents_eq_specChain, specChain_length]
  simp [initComputed, countChanges, countChanges_nil_deps rest h]

/-- Witness for C6: a mount render with empty dependency list followed by a
manual update and two more renders invokes the factory exactly once. -/
theorem empty_deps_factory_runs_once_witness :
    ((runEvents (fun n => n + 1)
        (Event.render [] ::
          ([Event.update 5, Event.render [], Event.render []] : List (Event Nat Nat)))
        (initComputed (0 : Nat))).2).length = 1 :=
  empty_deps_factory_runs_once (fun n => n + 1) 0
    [Event.update 5, Event.render [], Event.render []] (by decide)

/-- C2 counterexample: with factory prev => (prev ?? 0) + 1, dependency list
[dep] and initial value 0, the factory also runs on the mount evaluation, so
after the mount render and two dependency changes the committed values are
1, 2, 3 — not 0, 1, 2 as the claim states. -/
theorem computed_sequence_cex :
    committedTrace incFactory propNineTrace (initComputed (some 0))
      = [some 1, some 2, some 3] ∧
    committedTrace incFactory propNineTrace (initComputed (some 0))
      ≠ [some 0, some 1, some 2] := by
  constructor
  · rfl
  · decide

/-- C2 (amended): with factory prev => (prev ?? 0) + 1, dependency list
[dep], initial value 0, a mount render and two dependency changes, the
previous argument seen by the factory progresses 0, 1, 2 — the value 0 is
observable on the cell only during the mount render pass, before the
render-phase update is applied — while the committed value progresses
1, 2, 3. -/
theorem computed_sequence_amended :
    (runEvents incFactory propNineTrace (initComputed (some 0))).2
      = [(some 0, some 1), (some 1, some 2), (some 2, some 3)] ∧
    committedTrace incFactory propNineTrace (initComputed (some 0))
      = [some 1, some 2, some 3] ∧
    (useComputedReactive incFactory [0] (initComputed (some 0))).observed = some 0 := by
  refine ⟨rfl, rfl, rfl⟩

/-- Renders on an unsettled promise only add pending continuations. -/
theorem runPromise_renders_unsettled (n p : Nat) (i : S) (log : List S) :
    runPromise (List.replicate n PEvent.render)
        { slot := i, pending := p, settled := none, callLog := log }
      = { slot := i, pending := p + n, settled := none, callLog := log } := by
  induction n generalizing p with
  | zero => rfl
  | succ n ih =>
    rw [List.replicate_succ]
    have h1 : runPromise (PEvent.render :: List.replicate n PEvent.render)
          { slot := i, pending := p, settled := none, callLog := log }
        = runPromise (List.replicate n PEvent.render)
          { slot := i, pending := p + 1, settled := none, callLog := log } := rfl
    rw [h1, ih]
    have h2 : p + 1 + n = p + (n + 1) := by omega
    rw [h2]

/-- Renders on a settled promise re-fire the freshly registered continuation
with the resolved value and leave the slot at that value. -/
theorem runPromise_renders_settled (n : Nat) (r : S) (log : List S) :
    runPromise (List.replicate n PEvent.render)
        { slot := r, pending := 0, settled := some r, callLog := log }
      = { slot := r, pending := 0, settled := some r,
          callLog := log ++ List.replicate n r } := by
  induction n generalizing log with
  | zero => simp [runPromise]
  | succ n ih =>
    rw [List.replicate_succ]
    have h1 : runPromise (PEvent.render :: List.replicate n PEvent.render)
          { slot := r, pending := 0, settled := some r, callLog := log }
        = runPromise (List.replicate n PEvent.render)
          { slot := r, pending := 0, settled := some r, callLog := log ++ [r] } := rfl
    rw [h1, ih]
    simp [List.replicate_succ]

/-- C5: for the single-promise adapter with promise P resolving to r and
initial value i, the cell is seeded with i, its value equals i across every
render before P settles, the continuations the renders registered fire at
settlement calling the cell's update with the resolved value — each exactly
once — and on every later render the value equals r (absent any manual
update, as in this trace). -/
theorem single_promise_adapter (i r : S) (n₁ n₂ : Nat) :
    (initPromise i).slot = i ∧
    (runPromise (List.replicate (n₁ + 1) PEvent.render) (initPromise i)).slot = i ∧
    (runPromise (List.replicate (n₁ + 1) PEvent.render) (initPromise i)).settled
      = none ∧
    (stepPromise (PEvent.resolve r)
        (runPromise (List.replicate (n₁ + 1) PEvent.render) (initPromise i))).slot
      = r ∧
    (stepPromise (PEvent.resolve r)
        (runPromise (List.replicate (n₁ + 1) PEvent.render) (initPromise i))).callLog
      = List.replicate (n₁ + 1) r ∧
    (runPromise (List.replicate n₂ PEvent.render)
        (stepPromise (PEvent.resolve r)
          (runPromise (List.replicate (n₁ + 1) PEvent.render) (initPromise i)))).slot
      = r := by
  have hinit : initPromise i
      = { slot := i, pending := 0, settled := none, callLog := ([] : List S) } := rfl
  have hbefore := runPromise_renders_unsettled (n₁ + 1) 0 i ([] : List S)
  rw [hinit, hbefore]
  have hstep : stepPromise (PEvent.resolve r)
        { slot := i, pending := 0 + (n₁ + 1), settled := none, callLog := ([] : List S) }
      = { slot := r, pending := 0, settled := some r,
          callLog := List.replicate (n₁ + 1) r } := by
    simp [stepPromise]
  rw [hstep]
  have hafter := runPromise_renders_settled n₂ r (List.replicate (n₁ + 1) r)
  rw [hafter]
  refine ⟨rfl, rfl, rfl, rfl, rfl, rfl⟩

/-- Update calls fired plus continuations still pending for a generation
grow by exactly one per render at which that generation is the current
memoized promise, and resolutions only move pending continuations into
fired calls. -/
theorem asyncCalls_conservation [DecidableEq D] (g : Nat)
    (trace : List (AEvent S D)) (st : AsyncComputedState S D) :
    (runAsync trace st).calls g + (runAsync trace st).pending g
      = st.calls g + st.pending g + rendersFor g trace st.memo st.nextGen := by
  induction trace generalizing st with
  | nil => simp [runAsync, rendersFor]
  | cons ev rest ih =>
    have hstep : runAsync (ev :: rest) st = runAsync rest (stepAsync ev st) := rfl
    rw [hstep, ih]
    cases ev with
    | render deps =>
      obtain ⟨slot, memo, nextGen, pending, settled, calls⟩ := st
      cases memo with
      | none =>
        cases hset : settled nextGen with
        | some r =>
          simp [stepAsync, hset, rendersFor]
          split_ifs <;> omega
        | none =>
          simp [stepAsync, hset, rendersFor]
          split_ifs <;> omega
      | some p =>
        obtain ⟨cached, g0⟩ := p
        by_cases hd : cached = deps
        · cases hset : settled g0 with
          | some r =>
            simp [stepAsync, hd, hset, rendersFor]
            split_ifs <;> omega
          | none =>
            simp [stepAsync, hd, hset, rendersFor]
            split_ifs <;> omega
        · cases hset : settled nextGen with
          | some r =>
            simp [stepAsync, hd, hset, rendersFor]
            split_ifs <;> omega
          | none =>
            simp [stepAsync, hd, hset, rendersFor]
            split_ifs <;> omega
    | resolve g0 r =>
      obtain ⟨slot, memo, nextGen, pending, settled, calls⟩ := st
      by_cases hlt : g0 < nextGen
      · cases hset : settled g0 with
        | some v =>
          simp [stepAsync, hlt, hset, rendersFor]
        | none =>
          rcases eq_or_ne g g0 with hg | hg
          · subst hg
            simp [stepAsync, hlt, hset, rendersFor]
          · simp [stepAsync, hlt, hset, rendersFor, hg]
      · simp [stepAsync, hlt, rendersFor]

/-- Every step preserves sanity: an unsettled promise has fired no update
call, a settled promise keeps no pending continuation. -/
theorem stepAsync_good [DecidableEq D] (ev : AEvent S D)
    (st : AsyncComputedState S D) (h : GoodAsync st) :
    GoodAsync (stepAsync ev st) := by
  obtain ⟨slot, memo, nextGen, pending, settled, calls⟩ := st
  cases ev with
  | render deps =>
    have hgen : ∀ g1 (st1 : AsyncComputedState S D), st1.settled = settled →
        st1.pending = pending → st1.calls = calls →
        GoodAsync (match st1.settled g1 with
          | some r =>
            { st1 with slot := r, calls := fun k => if k = g1 then st1.calls k + 1 else st1.calls k }
          | none =>
            { st1 with pending := fun k => if k = g1 then st1.pending k + 1 else st1.pending k }) := by
      intro g1 st1 hs hp hc
      subst hs hp hc
      cases hset : st1.settled g1 with
      | some r =>
        intro k
        have hk1 := (h k).1
        have hk2 := (h k).2
        rcases eq_or_ne k g1 with hkg | hkg
        · subst hkg
          refine ⟨fun hk => ?_, fun hk => ?_⟩ <;> simp_all
        · refine ⟨fun hk => ?_, fun hk => ?_⟩ <;> simp_all [hkg]
      | none =>
        intro k
        have hk1 := (h k).1
        have hk2 := (h k).2
        rcases eq_or_ne k g1 with hkg | hkg
        · subst hkg
          refine ⟨fun hk => ?_, fun hk => ?_⟩ <;> simp_all
        · refine ⟨fun hk => ?_, fun hk => ?_⟩ <;> simp_all [hkg]
    cases memo with
    | none => exact hgen nextGen _ rfl rfl rfl
    | some p =>
      obtain ⟨cached, g0⟩ := p
      by_cases hd : cached = deps
      · have hg := hgen g0
          ⟨slot, some (cached, g0), nextGen, pending, settled, calls⟩ rfl rfl rfl
        cases hset : settled g0 with
        | some r =>
          simp only [hset] at hg
          simpa [stepAsync, hd, hset] using hg
        | none =>
          simp only [hset] at hg
          simpa [stepAsync, hd, hset] using hg
      · have hg := hgen nextGen
          ⟨slot, some (deps, nextGen), nextGen + 1, pending, settled, calls⟩ rfl rfl rfl
        cases hset : settled nextGen with
        | some r =>
          simp only [hset] at hg
          simpa [stepAsync, hd, hset] using hg
        | none =>
          simp only [hset] at hg
          simpa [stepAsync, hd, hset] using hg
  | resolve g0 r =>
    by_cases hlt : g0 < nextGen
    · cases hset : settled g0 with
      | some v =>
        simpa [stepAsync, hlt, hset] using h
      | none =>
        intro k
        rcases eq_or_ne k g0 with hkg | hkg
        · subst hkg
          refine ⟨fun hk => ?_, fun hk => ?_⟩
          · simp [stepAsync, hlt, hset] at hk
          · simp [stepAsync, hlt, hset]
        · refine ⟨fun hk => ?_, fun hk => ?_⟩
          · simp [stepAsync, hlt, hset, hkg] at hk ⊢
            exact (h k).1 hk
          · simp [stepAsync, hlt, hset, hkg] at hk ⊢
            exact (h k).2 hk
    · simpa [stepAsync, hlt] using h

/-- Sanity is an invariant of whole traces. -/
theorem runAsync_good [DecidableEq D] (trace : List (AEvent S D))
    (st : AsyncComputedState S D) (h : GoodAsync st) :
    GoodAsync (runAsync trace st) := by
  induction trace generalizing st with
  | nil => exact h
  | cons ev rest ih => exact ih (stepAsync ev st) (stepAsync_good ev st h)

/-- C1 counterexample: useAsyncComputed registers `.then(previous.update)` on
every render, not once per recomputation. With one recomputation (the mount
render, promise generation 0), its resolution, and the single re-render that
resolution itself causes (the dependency list unchanged, so the memo does not
recompute), the number of update calls attributable to generation 0's promise
is 2 — not exactly one as the claim states. -/
theorem async_update_calls_cex :
    (runAsync asyncCexTrace (initAsync 0)).calls 0 = 2 ∧
    ¬ (runAsync asyncCexTrace (initAsync 0)).calls 0 = 1 := by
  refine ⟨rfl, by decide⟩

/-- C1 (amended): for the dependency-tracked promise adapter, a continuation
on the current memoized promise is registered on every render, so once a
recomputation's promise settles, the number of update calls attributable to
it equals the number of renders at which it was the memoized promise — at
least one, but more than one whenever the owning component re-renders while
that promise is current (before or after it settles); a promise that never
settles publishes nothing. -/
theorem async_update_calls_per_render [DecidableEq D] (i : S) (g : Nat)
    (trace : List (AEvent S D))
    (h : ((runAsync trace (initAsync i)).settled g).isSome = true) :
    (runAsync trace (initAsync i)).calls g = rendersFor g trace none 0 := by
  have hcons := asyncCalls_conservation g trace (initAsync i)
  have hgood := runAsync_good trace (initAsync i)
    (fun k => ⟨fun _ => rfl, fun hk => absurd rfl hk⟩)
  have hp0 : (runAsync trace (initAsync i)).pending g = 0 :=
    (hgood g).2 (by intro hnone; rw [hnone] at h; simp at h)
  have hinit : rendersFor g trace (initAsync i (D := D)).memo (initAsync i (D := D)).nextGen
      = rendersFor g trace none 0 := rfl
  rw [hinit] at hcons
  have hz1 : (initAsync i (D := D)).calls g = 0 := rfl
  have hz2 : (initAsync i (D := D)).pending g = 0 := rfl
  rw [hz1, hz2] at hcons
  omega

/-- Witness for C1 (amended): on the trace of the counterexample the settled
generation-0 promise published once per render that saw it — twice. -/
theorem async_update_calls_per_render_witness :
    (runAsync asyncCexTrace (initAsync 0)).calls 0
      = rendersFor 0 asyncCexTrace none 0 :=
  async_update_calls_per_render 0 0 asyncCexTrace (by decide)

end ReactiveModels
